import Mathlib

/-!
# Verification of the Moex bond valuation core

Shallow embedding of the bond valuation and selection engine:
* `models/bond.py` — the `Bond` entity (`clean_price`, `is_zero_coupon`);
* `utils/helpers.py` — `years_fraction`, `get_coupon_schedule`, `calculate_ytm`,
  `is_valid_bond`;
* `data/bond_calculator.py` — `BondCalculator.filter_bonds`, `score_bond`,
  `find_best_bond`, `get_top_bonds`.

Dates are modelled as integer day numbers (the Python code only ever uses
`(end - start).days`), money and times as rationals, and the solver's
floating-point arithmetic as real arithmetic.  Python's `float('inf')`
sentinel inside the solver's `npv` helper (returned for `rate <= -1`) is
modelled as `0`: the real numbers have no infinity, and every statement
below evaluates `npv` only at rates `> -1` where that branch is dead.
-/

namespace Moex

/-- `utils/helpers.py` `days_between`: `(end_date - start_date).days`. -/
def days_between (start_date end_date : ℤ) : ℤ := end_date - start_date

/-- `utils/helpers.py` `years_fraction`: `days / 365.25` (365.25 = 1461/4). -/
def years_fraction (start_date end_date : ℤ) : ℚ :=
  (days_between start_date end_date : ℚ) / (1461 / 4)

/-- A raw coupon-period record from MOEX.  The Python code reads
`cp['coupondate']` and `float(cp['value'])` inside a `try`/`except` that
skips the record on `KeyError`/`ValueError`/`TypeError`; a record is
modelled as `some (date, value)` when those reads succeed and `none`
when the record would be skipped. -/
abbrev CouponPeriod : Type := Option (ℤ × ℚ)

/-- `models/bond.py` `Bond`.  The string identity fields (`secid`, `isin`,
`name`, `boardid`) play no role in any computation and are omitted. -/
structure Bond where
  price : ℚ
  nominal : ℚ
  coupon_rate : Option ℚ
  maturity_date : ℤ
  accrued_interest : ℚ
  volume_rub : ℚ
  coupon_periods : List CouponPeriod
deriving DecidableEq

/-- `Bond.clean_price`: `self.price - self.accrued_interest`. -/
def Bond.clean_price (b : Bond) : ℚ := b.price - b.accrued_interest

/-- `Bond.is_zero_coupon`: if `coupon_rate is None` then
`len(coupon_periods) == 0` else `coupon_rate == 0.0`. -/
def Bond.is_zero_coupon (b : Bond) : Bool :=
  match b.coupon_rate with
  | none => decide (b.coupon_periods.length = 0)
  | some r => decide (r = 0)

/-- Python truthiness of `bond.coupon_rate` (`None` and `0.0` are falsy). -/
def couponRateTruthy (b : Bond) : Bool :=
  match b.coupon_rate with
  | none => false
  | some r => decide (r ≠ 0)

/-- Python `int(...)` conversion on a rational: truncation toward zero. -/
def pyInt (q : ℚ) : ℤ := if q < 0 then -⌊-q⌋ else ⌊q⌋

/-- First phase of `get_coupon_schedule`: the explicit MOEX coupon periods,
keeping only parseable records with `coupon_date > today`, each converted
to `(years_fraction today coupon_date, value)` in input order. -/
def explicitEvents (today : ℤ) (b : Bond) : List (ℚ × ℚ) :=
  b.coupon_periods.filterMap fun cp =>
    match cp with
    | none => none
    | some (d, v) => if d ≤ today then none else some (years_fraction today d, v)

/-- `freq = 2 if bond.coupon_rate > 0 else 1`. -/
def approxFreq (r : ℚ) : ℚ := if 0 < r then 2 else 1

/-- Second phase of `get_coupon_schedule`: the fixed-frequency approximation
used when no explicit events survived and the coupon rate is usable.
`periods = max(1, int(ytm * freq))`; events at `t = i/freq` for
`i = 1..periods`, stopping (`break`) at the first
`t > years_to_maturity`. -/
def approxEvents (today : ℤ) (b : Bond) : List (ℚ × ℚ) :=
  match b.coupon_rate with
  | none => []
  | some r =>
    (((List.range
          (max 1 (pyInt (years_fraction today b.maturity_date * approxFreq r))).toNat).map
        fun (i : ℕ) => ((i : ℚ) + 1) / approxFreq r).takeWhile
      fun t => decide (t ≤ years_fraction today b.maturity_date)).map
      fun t => (t, (r / 100) * b.nominal / approxFreq r)

/-- The coupon part of the schedule (`get_coupon_schedule` before the
redemption step): the explicit events if any survived, otherwise the
approximation when `bond.coupon_rate` is truthy and the bond is not
zero-coupon, otherwise empty. -/
def preEvents (today : ℤ) (b : Bond) : List (ℚ × ℚ) :=
  if (explicitEvents today b).isEmpty && (couponRateTruthy b && !b.is_zero_coupon) then
    approxEvents today b
  else explicitEvents today b

/-- `utils/helpers.py` `get_coupon_schedule`: coupon events followed by the
face-value redemption, which is merged into the last coupon when the
maturity time is within `0.01` years of it and appended as a trailing
event otherwise; with no coupon events the schedule is the single
redemption event. -/
def get_coupon_schedule (today : ℤ) (b : Bond) : List (ℚ × ℚ) :=
  match (preEvents today b).getLast? with
  | none => [(years_fraction today b.maturity_date, b.nominal)]
  | some (last_time, last_amount) =>
    if |years_fraction today b.maturity_date - last_time| > 1 / 100 then
      preEvents today b ++ [(years_fraction today b.maturity_date, b.nominal)]
    else
      (preEvents today b).dropLast ++ [(last_time, last_amount + b.nominal)]

/-- The `npv` helper inside `calculate_ytm`:
`Σ amount / (1 + rate) ** time` (real exponentiation).  The Python guard
`if rate <= -1: return float('inf')` is modelled with junk value `0`
(see the module docstring); every theorem below stays at `rate > -1`. -/
noncomputable def npv (schedule : List (ℚ × ℚ)) (rate : ℝ) : ℝ :=
  if rate ≤ -1 then 0
  else (schedule.map fun item => (item.2 : ℝ) / (1 + rate) ^ (item.1 : ℝ)).sum

/-- The bisection loop of `calculate_ytm`, with the remaining iteration
count as fuel: return `mid` as soon as `|npv(mid) - price| < tolerance`,
otherwise shrink the bracket; when the fuel runs out return the final
midpoint. -/
noncomputable def ytmLoop (price : ℝ) (schedule : List (ℚ × ℚ)) (tolerance : ℝ) :
    ℕ → ℝ → ℝ → ℝ
  | 0, low, high => (low + high) / 2
  | fuel + 1, low, high =>
    let mid := (low + high) / 2
    if |npv schedule mid - price| < tolerance then mid
    else if npv schedule mid > price then ytmLoop price schedule tolerance fuel mid high
    else ytmLoop price schedule tolerance fuel low mid

/-- `utils/helpers.py` `calculate_ytm`, over a clean price and a schedule:
`None` for a non-positive clean price, an empty schedule, or a price
outside `[NPV(high), NPV(low)]` with `low = -0.5`, `high = 2.0`;
otherwise the result of the bisection loop. -/
noncomputable def calculate_ytm (price : ℝ) (schedule : List (ℚ × ℚ))
    (tolerance : ℝ) (max_iterations : ℕ) : Option ℝ :=
  if price ≤ 0 then none
  else if schedule.isEmpty then none
  else if price > npv schedule (-(1 / 2)) ∨ price < npv schedule 2 then none
  else some (ytmLoop price schedule tolerance max_iterations (-(1 / 2)) 2)

/-- `calculate_ytm` applied to a `Bond` with the default
`tolerance=1e-6`, `max_iterations=1000`: clean price and the schedule
from `get_coupon_schedule`. -/
noncomputable def calculate_ytm_bond (today : ℤ) (b : Bond) : Option ℝ :=
  calculate_ytm (b.clean_price : ℝ) (get_coupon_schedule today b) (1 / 1000000) 1000

/-- The settings dictionary consumed by `is_valid_bond`, with the
`settings.get(key, default)` reads collapsed into total fields. -/
structure Settings where
  max_maturity_years : ℚ
  exclude_zero_coupon : Bool
  min_volume_rub : ℚ

/-- `utils/helpers.py` `is_valid_bond`. -/
def is_valid_bond (today : ℤ) (b : Bond) (settings : Settings) : Bool :=
  let years_to_maturity := years_fraction today b.maturity_date
  if years_to_maturity ≤ 0 then false
  else if settings.max_maturity_years < years_to_maturity then false
  else if settings.exclude_zero_coupon && b.is_zero_coupon then false
  else if b.volume_rub < settings.min_volume_rub then false
  else true

/-- The bond entity consumed by `data/bond_calculator.py` (the source
holds a second, divergent `Bond` schema; only the fields the calculator
reads are modelled).  `BondCalculator.filter_bonds` compares
`bond.years_to_maturity` directly, which presupposes the derived field has
been populated; it is therefore modelled as a total field. -/
structure CalcBond where
  price : ℚ
  years_to_maturity : ℚ
  yield_to_maturity : Option ℚ
  sector : String
deriving DecidableEq

/-- The constructor arguments of `BondCalculator`. -/
structure CalcConfig where
  min_years_to_maturity : ℚ
  max_years_to_maturity : ℚ
  prefer_government : Bool
  min_ytm_threshold : ℚ
deriving DecidableEq

/-- The per-bond predicate of `BondCalculator.filter_bonds` (a bond is
kept when no `continue` fires). -/
def keepBond (cfg : CalcConfig) (b : CalcBond) : Bool :=
  if ¬ (cfg.min_years_to_maturity ≤ b.years_to_maturity ∧
      b.years_to_maturity ≤ cfg.max_years_to_maturity) then false
  else
    match b.yield_to_maturity with
    | none => false
    | some y =>
      if y < cfg.min_ytm_threshold then false
      else if b.price ≤ 0 ∨ 200 < b.price then false
      else true

/-- `BondCalculator.filter_bonds`: the kept bonds in input order. -/
def filter_bonds (cfg : CalcConfig) (bonds : List CalcBond) : List CalcBond :=
  bonds.filter (keepBond cfg)

/-- `BondCalculator.score_bond`:
`(bond.yield_to_maturity or 0.0) + (0.5 when government is preferred)`. -/
def score_bond (cfg : CalcConfig) (b : CalcBond) : ℚ :=
  (match b.yield_to_maturity with | none => 0 | some y => y) +
    (if cfg.prefer_government && decide (b.sector = "government") then 1 / 2 else 0)

/-- Python's `max(iterable, key=f)` starting from a current best: scan
left to right, replacing the best only on a strictly greater key (so the
earliest maximal-key element wins). -/
def pyMaxBy (f : α → ℚ) : α → List α → α
  | best, [] => best
  | best, x :: xs => pyMaxBy f (if f best < f x then x else best) xs

/-- `BondCalculator.find_best_bond`: `None` when nothing passes the
filter, otherwise `max(filtered, key=self.score_bond)`. -/
def find_best_bond (cfg : CalcConfig) (bonds : List CalcBond) : Option CalcBond :=
  match filter_bonds cfg bonds with
  | [] => none
  | x :: xs => some (pyMaxBy (score_bond cfg) x xs)

/-- Stable descending insertion: place `x` before the first element with
a strictly smaller key, after every element with a `≥` key. -/
def insertDesc (f : α → ℚ) (x : α) : List α → List α
  | [] => [x]
  | y :: ys => if f x < f y then y :: insertDesc f x ys else x :: y :: ys

/-- Python's `list.sort(key=..., reverse=True)` is a stable descending
sort (equal keys keep their original relative order); embedded as a
stable insertion sort. -/
def sortDesc (f : α → ℚ) : List α → List α
  | [] => []
  | x :: xs => insertDesc f x (sortDesc f xs)

/-- `BondCalculator.get_top_bonds`: sort the filtered bonds by descending
score and take the first `top_n`. -/
def get_top_bonds (cfg : CalcConfig) (bonds : List CalcBond) (top_n : ℕ) : List CalcBond :=
  (sortDesc (score_bond cfg) (filter_bonds cfg bonds)).take top_n

/-! ## Concrete instruments used as witnesses and counterexamples -/

/-- A bond whose explicit coupon rate is `0` while explicit coupon
periods are present. -/
def bondRateZero : Bond :=
  { price := 100, nominal := 1000, coupon_rate := some 0, maturity_date := 1461,
    accrued_interest := 0, volume_rub := 0, coupon_periods := [some (100, 10)] }

/-- A zero-coupon bond redeeming `1` at day 1461 (4 years), priced far
above the achievable `NPV` range. -/
def bondOverpriced : Bond :=
  { price := 100, nominal := 1, coupon_rate := none, maturity_date := 1461,
    accrued_interest := 0, volume_rub := 0, coupon_periods := [] }

/-- A zero-coupon bond redeeming `16` at day 1461 (4 years), priced so
that the first bisection midpoint already meets the tolerance. -/
def bondMidpoint : Bond :=
  { price := 4096 / 2401, nominal := 16, coupon_rate := none, maturity_date := 1461,
    accrued_interest := 0, volume_rub := 0, coupon_periods := [] }

/-- A bond with one explicit future coupon (day 1461) and maturity at
day 2922, so redemption is appended as a separate event. -/
def bondAppend : Bond :=
  { price := 100, nominal := 1000, coupon_rate := none, maturity_date := 2922,
    accrued_interest := 0, volume_rub := 0, coupon_periods := [some (1461, 10)] }

/-- A bond whose explicit coupon periods arrive in descending date
order. -/
def bondUnsorted : Bond :=
  { price := 100, nominal := 1000, coupon_rate := none, maturity_date := 300,
    accrued_interest := 0, volume_rub := 0,
    coupon_periods := [some (200, 10), some (100, 10)] }

/-- The same instrument with its coupon periods in ascending date
order. -/
def bondSorted : Bond :=
  { price := 100, nominal := 1000, coupon_rate := none, maturity_date := 300,
    accrued_interest := 0, volume_rub := 0,
    coupon_periods := [some (100, 10), some (200, 10)] }

/-- A bond with face value `0` and no coupon data at all. -/
def bondZeroFace : Bond :=
  { price := 100, nominal := 0, coupon_rate := none, maturity_date := 1461,
    accrued_interest := 0, volume_rub := 0, coupon_periods := [] }

/-- A bond maturing on the evaluation day (day 5). -/
def bondMaturingToday : Bond :=
  { price := 100, nominal := 1000, coupon_rate := none, maturity_date := 5,
    accrued_interest := 0, volume_rub := 0, coupon_periods := [] }

/-- Settings with every filter permissive. -/
def settingsPermissive : Settings :=
  { max_maturity_years := 30, exclude_zero_coupon := false, min_volume_rub := 0 }

/-- A calculator-side bond annotated with `years_to_maturity = 0`
(maturity equal to the evaluation date) that satisfies every other
filter criterion. -/
def calcBondZeroYears : CalcBond :=
  { price := 100, years_to_maturity := 0, yield_to_maturity := some 1, sector := "other" }

/-- A screening configuration with `min_years_to_maturity = 0`. -/
def cfgMinZero : CalcConfig :=
  { min_years_to_maturity := 0, max_years_to_maturity := 30,
    prefer_government := true, min_ytm_threshold := 0 }

/-- The default screening configuration of `BondCalculator.__init__`. -/
def cfgDefault : CalcConfig :=
  { min_years_to_maturity := 1 / 2, max_years_to_maturity := 30,
    prefer_government := true, min_ytm_threshold := 0 }

/-! ## Helper lemmas about `npv` -/

theorem npv_nil (rate : ℝ) : npv [] rate = 0 := by
  unfold npv
  split <;> simp

theorem npv_of_neg_one_lt (schedule : List (ℚ × ℚ)) (rate : ℝ) (h : -1 < rate) :
    npv schedule rate =
      (schedule.map fun item => (item.2 : ℝ) / (1 + rate) ^ (item.1 : ℝ)).sum := by
  unfold npv
  rw [if_neg (not_le.mpr h)]

theorem npv_cons (t c : ℚ) (l : List (ℚ × ℚ)) (rate : ℝ) (h : -1 < rate) :
    npv ((t, c) :: l) rate = (c : ℝ) / (1 + rate) ^ (t : ℝ) + npv l rate := by
  rw [npv_of_neg_one_lt _ _ h, npv_of_neg_one_lt _ _ h, List.map_cons, List.sum_cons]

theorem one_add_pos_of_neg_one_lt {rate : ℝ} (h : -1 < rate) : 0 < 1 + rate := by
  linarith

/-- Evaluation of `npv` on a one-event schedule whose time is a natural
number of years, in terms of monoid powers (`norm_num`-friendly). -/
theorem npv_single_nat (t : ℕ) (c : ℚ) (rate : ℝ) (h : -1 < rate) :
    npv [((t : ℚ), c)] rate = (c : ℝ) / (1 + rate) ^ t := by
  rw [npv_cons _ _ _ _ h, npv_nil]
  have ht : (((t : ℚ) : ℝ)) = ((t : ℕ) : ℝ) := by push_cast; ring
  rw [ht, Real.rpow_natCast]
  ring

/-- Evaluation of `npv` on a one-event schedule whose time equals a
natural number of years. -/
theorem npv_single_eval (t c : ℚ) (n : ℕ) (rate : ℝ) (h : -1 < rate)
    (ht : t = (n : ℚ)) : npv [(t, c)] rate = (c : ℝ) / (1 + rate) ^ n := by
  subst ht
  exact npv_single_nat n c rate h

/-- With positive amounts and a nonempty schedule, `npv` is positive on the
solver's half-line `rate > -1`. -/
theorem npv_pos (schedule : List (ℚ × ℚ)) (rate : ℝ) (h : -1 < rate)
    (hne : schedule ≠ []) (hpos : ∀ e ∈ schedule, 0 < e.2) : 0 < npv schedule rate := by
  induction schedule with
  | nil => exact absurd rfl hne
  | cons e l ih =>
    obtain ⟨t, c⟩ := e
    rw [npv_cons _ _ _ _ h]
    have hc : (0 : ℝ) < (c : ℝ) := by
      have := hpos (t, c) (List.mem_cons_self _ _)
      exact_mod_cast this
    have hterm : 0 < (c : ℝ) / (1 + rate) ^ (t : ℝ) :=
      div_pos hc (Real.rpow_pos_of_pos (one_add_pos_of_neg_one_lt h) _)
    rcases List.eq_nil_or_concat l with hl | _
    · subst hl
      rw [npv_nil]
      linarith
    · have hlpos : 0 < npv l rate ∨ l = [] := by
        rcases eq_or_ne l [] with h' | h'
        · exact Or.inr h'
        · exact Or.inl (ih h' fun e he => hpos e (List.mem_cons_of_mem _ he))
      rcases hlpos with h' | h'
      · linarith
      · subst h'
        rw [npv_nil]
        linarith

/-- With non-positive amounts, `npv` is non-positive on `rate > -1`. -/
theorem npv_nonpos (schedule : List (ℚ × ℚ)) (rate : ℝ) (h : -1 < rate)
    (hnp : ∀ e ∈ schedule, e.2 ≤ 0) : npv schedule rate ≤ 0 := by
  induction schedule with
  | nil => rw [npv_nil]
  | cons e l ih =>
    obtain ⟨t, c⟩ := e
    rw [npv_cons _ _ _ _ h]
    have hc : (c : ℝ) ≤ 0 := by
      have := hnp (t, c) (List.mem_cons_self _ _)
      exact_mod_cast this
    have hterm : (c : ℝ) / (1 + rate) ^ (t : ℝ) ≤ 0 :=
      div_nonpos_of_nonpos_of_nonneg hc
        (le_of_lt (Real.rpow_pos_of_pos (one_add_pos_of_neg_one_lt h) _))
    have := ih fun e he => hnp e (List.mem_cons_of_mem _ he)
    linarith

/-- Weak antitonicity: with non-negative amounts and non-negative times,
`npv` is weakly decreasing on `rate > -1`. -/
theorem npv_antitone (schedule : List (ℚ × ℚ)) (a b : ℝ) (ha : -1 < a) (hab : a ≤ b)
    (hgood : ∀ e ∈ schedule, 0 ≤ e.2 ∧ 0 ≤ e.1) : npv schedule b ≤ npv schedule a := by
  have hb : -1 < b := lt_of_lt_of_le ha hab
  induction schedule with
  | nil => rw [npv_nil, npv_nil]
  | cons e l ih =>
    obtain ⟨t, c⟩ := e
    rw [npv_cons _ _ _ _ ha, npv_cons _ _ _ _ hb]
    have hc : (0 : ℝ) ≤ (c : ℝ) := by
      have := (hgood (t, c) (List.mem_cons_self _ _)).1
      exact_mod_cast this
    have ht : (0 : ℝ) ≤ ((t : ℚ) : ℝ) := by
      have := (hgood (t, c) (List.mem_cons_self _ _)).2
      exact_mod_cast this
    have hbase : (1 + a) ^ ((t : ℚ) : ℝ) ≤ (1 + b) ^ ((t : ℚ) : ℝ) :=
      Real.rpow_le_rpow (le_of_lt (one_add_pos_of_neg_one_lt ha)) (by linarith) ht
    have hterm : (c : ℝ) / (1 + b) ^ ((t : ℚ) : ℝ) ≤ (c : ℝ) / (1 + a) ^ ((t : ℚ) : ℝ) :=
      div_le_div_of_nonneg_left hc
        (Real.rpow_pos_of_pos (one_add_pos_of_neg_one_lt ha) _) hbase
    have := ih fun e he => hgood e (List.mem_cons_of_mem _ he)
    linarith

/-- Strict antitonicity: with positive amounts, non-negative times, and at
least one positive time, `npv` is strictly decreasing on `rate > -1`. -/
theorem npv_strict_anti (schedule : List (ℚ × ℚ)) (a b : ℝ) (ha : -1 < a) (hab : a < b)
    (hgood : ∀ e ∈ schedule, 0 < e.2 ∧ 0 ≤ e.1) (hsome : ∃ e ∈ schedule, 0 < e.1) :
    npv schedule b < npv schedule a := by
  have hb : -1 < b := lt_trans ha hab
  induction schedule with
  | nil =>
    obtain ⟨e, he, _⟩ := hsome
    exact absurd he (List.not_mem_nil e)
  | cons e l ih =>
    obtain ⟨t, c⟩ := e
    rw [npv_cons _ _ _ _ ha, npv_cons _ _ _ _ hb]
    have hc : (0 : ℝ) < (c : ℝ) := by
      have := (hgood (t, c) (List.mem_cons_self _ _)).1
      exact_mod_cast this
    have ht0 : (0 : ℝ) ≤ ((t : ℚ) : ℝ) := by
      have := (hgood (t, c) (List.mem_cons_self _ _)).2
      exact_mod_cast this
    by_cases htpos : (0 : ℚ) < t
    · -- the head term is strictly decreasing; the tail is weakly decreasing
      have htR : (0 : ℝ) < ((t : ℚ) : ℝ) := by exact_mod_cast htpos
      have hbase : (1 + a) ^ ((t : ℚ) : ℝ) < (1 + b) ^ ((t : ℚ) : ℝ) :=
        Real.rpow_lt_rpow (le_of_lt (one_add_pos_of_neg_one_lt ha)) (by linarith) htR
      have hterm : (c : ℝ) / (1 + b) ^ ((t : ℚ) : ℝ) < (c : ℝ) / (1 + a) ^ ((t : ℚ) : ℝ) :=
        div_lt_div_of_pos_left hc
          (Real.rpow_pos_of_pos (one_add_pos_of_neg_one_lt ha) _) hbase
      have htail : npv l b ≤ npv l a :=
        npv_antitone l a b ha (le_of_lt hab)
          fun e he => ⟨le_of_lt (hgood e (List.mem_cons_of_mem _ he)).1,
            (hgood e (List.mem_cons_of_mem _ he)).2⟩
      linarith
    · -- the head time is 0, so the strict witness lives in the tail
      have hteq : t = 0 := le_antisymm (not_lt.mp htpos) (by exact_mod_cast ht0)
      obtain ⟨e, he, hepos⟩ := hsome
      rcases List.mem_cons.mp he with he' | he'
      · exfalso
        rw [he'] at hepos
        exact htpos hepos
      · have htail : npv l b < npv l a :=
          ih (fun e he => hgood e (List.mem_cons_of_mem _ he)) ⟨e, he', hepos⟩
        subst hteq
        simp only [Rat.cast_zero, Real.rpow_zero]
        linarith

/-! ## Helper lemmas about the bisection loop -/

/-- One-step unfolding of the loop at positive fuel. -/
theorem ytmLoop_succ (price : ℝ) (schedule : List (ℚ × ℚ)) (tolerance : ℝ)
    (fuel : ℕ) (low high : ℝ) :
    ytmLoop price schedule tolerance (fuel + 1) low high =
      if |npv schedule ((low + high) / 2) - price| < tolerance then (low + high) / 2
      else if npv schedule ((low + high) / 2) > price then
        ytmLoop price schedule tolerance fuel ((low + high) / 2) high
      else ytmLoop price schedule tolerance fuel low ((low + high) / 2) := rfl

/-- The loop keeps its result inside the initial bracket as long as the
bracket sits inside `[-1/2, 2]`. -/
theorem ytmLoop_mem (price : ℝ) (schedule : List (ℚ × ℚ)) (tolerance : ℝ) :
    ∀ (fuel : ℕ) (low high : ℝ), -(1 / 2) ≤ low → low ≤ high → high ≤ 2 →
      -(1 / 2) ≤ ytmLoop price schedule tolerance fuel low high ∧
        ytmLoop price schedule tolerance fuel low high ≤ 2 := by
  intro fuel
  induction fuel with
  | zero =>
    intro low high h1 h2 h3
    constructor <;> simp only [ytmLoop] <;> linarith
  | succ n ih =>
    intro low high h1 h2 h3
    rw [ytmLoop_succ]
    split
    · constructor <;> linarith
    · split
      · exact ih ((low + high) / 2) high (by linarith) (by linarith) h3
      · exact ih low ((low + high) / 2) h1 (by linarith) (by linarith)

/-! ## Helper lemmas about the scheduler -/

/-- Computation of `get_coupon_schedule` once the coupon phase is
decomposed as `init ++ [(tl, cl)]`. -/
theorem get_coupon_schedule_concat (today : ℤ) (b : Bond) (init : List (ℚ × ℚ))
    (tl cl : ℚ) (h : preEvents today b = init ++ [(tl, cl)]) :
    get_coupon_schedule today b =
      if |years_fraction today b.maturity_date - tl| > 1 / 100 then
        (init ++ [(tl, cl)]) ++ [(years_fraction today b.maturity_date, b.nominal)]
      else init ++ [(tl, cl + b.nominal)] := by
  have hm : get_coupon_schedule today b =
      if |years_fraction today b.maturity_date - tl| > 1 / 100 then
        (init ++ [(tl, cl)]) ++ [(years_fraction today b.maturity_date, b.nominal)]
      else (init ++ [(tl, cl)]).dropLast ++ [(tl, cl + b.nominal)] := by
    unfold get_coupon_schedule
    rw [h, List.getLast?_concat]
  rw [hm, List.dropLast_concat]

/-- The fixed-frequency approximation produces times in ascending
order. -/
theorem approxEvents_pairwise (today : ℤ) (b : Bond) :
    List.Pairwise (fun x y : ℚ × ℚ => x.1 ≤ y.1) (approxEvents today b) := by
  unfold approxEvents
  cases hr : b.coupon_rate with
  | none => exact List.Pairwise.nil
  | some r =>
    have hfreq : 0 < approxFreq r := by
      unfold approxFreq
      split <;> norm_num
    have hts : List.Pairwise (fun x y : ℚ => x ≤ y)
        ((List.range
            (max 1 (pyInt (years_fraction today b.maturity_date * approxFreq r))).toNat).map
          fun (i : ℕ) => ((i : ℚ) + 1) / approxFreq r) := by
      refine List.Pairwise.map _ ?_ (List.pairwise_lt_range _)
      intro i j hij
      have hcast : ((i : ℚ) + 1) ≤ ((j : ℚ) + 1) := by
        have : (i : ℚ) < (j : ℚ) := by exact_mod_cast hij
        linarith
      exact (div_le_div_iff_of_pos_right hfreq).mpr hcast
    have htw := hts.sublist (List.takeWhile_sublist
      fun t => decide (t ≤ years_fraction today b.maturity_date))
    exact List.Pairwise.map _ (fun a b hab => hab) htw

/-- Every approximated coupon time is at most the maturity time. -/
theorem approxEvents_le (today : ℤ) (b : Bond) :
    ∀ e ∈ approxEvents today b, e.1 ≤ years_fraction today b.maturity_date := by
  unfold approxEvents
  cases hr : b.coupon_rate with
  | none => simp
  | some r =>
    intro e he
    rw [List.mem_map] at he
    obtain ⟨t, ht, rfl⟩ := he
    have := List.mem_takeWhile_imp ht
    simpa using this

/-- The coupon phase is sorted with times below maturity whenever the
explicit events are. -/
theorem preEvents_pairwise_le (today : ℤ) (b : Bond)
    (h1 : List.Pairwise (fun x y : ℚ × ℚ => x.1 ≤ y.1) (explicitEvents today b))
    (h2 : ∀ e ∈ explicitEvents today b, e.1 ≤ years_fraction today b.maturity_date) :
    List.Pairwise (fun x y : ℚ × ℚ => x.1 ≤ y.1) (preEvents today b) ∧
      ∀ e ∈ preEvents today b, e.1 ≤ years_fraction today b.maturity_date := by
  unfold preEvents
  split
  · exact ⟨approxEvents_pairwise today b, approxEvents_le today b⟩
  · exact ⟨h1, h2⟩

/-! ## Helper lemmas about the stable descending sort -/

theorem insertDesc_head (f : α → ℚ) (x : α) (l : List α) :
    (insertDesc f x l).head? =
      some (match l.head? with
            | none => x
            | some h => if f x < f h then h else x) := by
  cases l with
  | nil => rfl
  | cons y ys =>
    unfold insertDesc
    split
    · rename_i hxy
      simp only [List.head?_cons, if_pos hxy]
    · rename_i hxy
      simp only [List.head?_cons, if_neg hxy]

theorem pyMaxBy_sortDesc (f : α → ℚ) :
    ∀ (l : List α) (b : α),
      pyMaxBy f b l =
        (match (sortDesc f l).head? with
         | none => b
         | some h => if f b < f h then h else b) := by
  intro l
  induction l with
  | nil => intro b; rfl
  | cons x xs ih =>
    intro b
    have hL : pyMaxBy f b (x :: xs) = pyMaxBy f (if f b < f x then x else b) xs := rfl
    rw [hL, ih]
    have hR : sortDesc f (x :: xs) = insertDesc f x (sortDesc f xs) := rfl
    rw [hR, insertDesc_head]
    cases hh : (sortDesc f xs).head? with
    | none => simp only []
    | some h =>
      simp only []
      split_ifs <;> first | rfl | linarith

theorem filter_insertDesc (f : α → ℚ) (s : ℚ) (x : α) (l : List α) :
    (insertDesc f x l).filter (fun b => decide (f b = s)) =
      ((x :: l).filter fun b => decide (f b = s)) := by
  induction l with
  | nil => rfl
  | cons y ys ih =>
    unfold insertDesc
    by_cases hxy : f x < f y
    · rw [if_pos hxy]
      by_cases hy : f y = s
      · have hx : ¬ f x = s := by
          intro h
          rw [h, ← hy] at hxy
          exact lt_irrefl (f y) hxy
        rw [List.filter_cons, List.filter_cons, ih, List.filter_cons]
        simp [hx, hy]
      · rw [List.filter_cons, List.filter_cons, ih, List.filter_cons]
        simp [hy]
    · rw [if_neg hxy]

theorem filter_sortDesc (f : α → ℚ) (s : ℚ) (l : List α) :
    (sortDesc f l).filter (fun b => decide (f b = s)) =
      (l.filter fun b => decide (f b = s)) := by
  induction l with
  | nil => rfl
  | cons x xs ih =>
    have h : sortDesc f (x :: xs) = insertDesc f x (sortDesc f xs) := rfl
    rw [h, filter_insertDesc, List.filter_cons, List.filter_cons, ih]

/-! ## Claim C9 -/

/-- C9: ranking is deterministic under ties — the bonds of any fixed
score appear in `get_top_bonds`' output in their original input order
(the output's restriction to that score is a sublist of the input's),
and `find_best_bond` returns exactly the head of the stable
descending-score ordering of the filtered collection: the earliest
maximal-score bond (and `none` exactly when the filtered collection is
empty). -/
theorem ranking_deterministic (cfg : CalcConfig) (bonds : List CalcBond)
    (top_n : ℕ) (s : ℚ) :
    List.Sublist
      ((get_top_bonds cfg bonds top_n).filter fun b => decide (score_bond cfg b = s))
      (bonds.filter fun b => decide (score_bond cfg b = s)) ∧
    find_best_bond cfg bonds =
      (sortDesc (score_bond cfg) (filter_bonds cfg bonds)).head? := by
  constructor
  · have h1 : List.Sublist
        ((get_top_bonds cfg bonds top_n).filter fun b => decide (score_bond cfg b = s))
        ((sortDesc (score_bond cfg) (filter_bonds cfg bonds)).filter
          fun b => decide (score_bond cfg b = s)) :=
      (List.take_sublist _ _).filter _
    rw [filter_sortDesc] at h1
    have h2 : List.Sublist
        ((filter_bonds cfg bonds).filter fun b => decide (score_bond cfg b = s))
        (bonds.filter fun b => decide (score_bond cfg b = s)) :=
      (List.filter_sublist bonds).filter _
    exact h1.trans h2
  · unfold find_best_bond
    cases hfb : filter_bonds cfg bonds with
    | nil => rfl
    | cons x xs =>
      show some (pyMaxBy (score_bond cfg) x xs) =
        (sortDesc (score_bond cfg) (x :: xs)).head?
      rw [pyMaxBy_sortDesc]
      have h : sortDesc (score_bond cfg) (x :: xs) =
          insertDesc (score_bond cfg) x (sortDesc (score_bond cfg) xs) := rfl
      rw [h, insertDesc_head]

/-! ## Claim C1 -/

/-- C1 counterexample: the schedule `[(time 0, amount 1)]` has strictly
positive cash amounts, yet its `NPV` is the constant `1` on `(-1, ∞)` —
not strictly decreasing. -/
theorem npv_strict_decrease_claim_false :
    (∀ e ∈ [((0 : ℚ), (1 : ℚ))], 0 < e.2) ∧
      ¬ StrictAntiOn (npv [((0 : ℚ), (1 : ℚ))]) (Set.Ioi (-1 : ℝ)) := by
  constructor
  · simp only [List.mem_singleton]
    rintro e rfl
    norm_num
  · intro hanti
    have e0 : npv [((0 : ℚ), (1 : ℚ))] 0 = 1 := by
      rw [npv_cons _ _ _ _ (by norm_num : (-1 : ℝ) < 0), npv_nil]
      norm_num [Real.rpow_zero]
    have e1 : npv [((0 : ℚ), (1 : ℚ))] 1 = 1 := by
      rw [npv_cons _ _ _ _ (by norm_num : (-1 : ℝ) < 1), npv_nil]
      norm_num [Real.rpow_zero]
    have hlt := hanti (a := 0) (by norm_num) (b := 1) (by norm_num) (by norm_num)
    rw [e0, e1] at hlt
    exact lt_irrefl 1 hlt

/-- C1 (amended): for every schedule with strictly positive amounts,
non-negative times, and at least one strictly positive time, the solver's
`NPV` is strictly decreasing in the rate over `(-1, ∞)`.  (The original
claim fails only for degenerate schedules all of whose times are `0`.) -/
theorem npv_strictAntiOn (schedule : List (ℚ × ℚ))
    (hgood : ∀ e ∈ schedule, 0 < e.2 ∧ 0 ≤ e.1)
    (hsome : ∃ e ∈ schedule, 0 < e.1) :
    StrictAntiOn (npv schedule) (Set.Ioi (-1 : ℝ)) :=
  fun a ha _ _ hab => npv_strict_anti schedule a _ (Set.mem_Ioi.mp ha) hab hgood hsome

/-- C1 witness: instantiation at the schedule `[(1, 1)]` and the rates
`0 < 1`. -/
theorem npv_strictAntiOn_witness :
    npv [((1 : ℚ), (1 : ℚ))] 1 < npv [((1 : ℚ), (1 : ℚ))] 0 :=
  npv_strictAntiOn [((1 : ℚ), (1 : ℚ))]
    (by simp only [List.mem_singleton]; rintro e rfl; exact ⟨by norm_num, by norm_num⟩)
    ⟨(1, 1), List.mem_singleton.mpr rfl, by norm_num⟩
    (by norm_num : (0 : ℝ) ∈ Set.Ioi (-1 : ℝ))
    (by norm_num : (1 : ℝ) ∈ Set.Ioi (-1 : ℝ)) (by norm_num)

/-! ## Claim C2 -/

/-- C2: whenever the clean price is strictly above `NPV(-0.5)` or
strictly below `NPV(2.0)`, `calculate_ytm` returns `none` (for any
tolerance and iteration cap) — never a numeric yield. -/
theorem out_of_range_unsolvable (today : ℤ) (b : Bond) (tolerance : ℝ)
    (max_iterations : ℕ)
    (h : ((b.clean_price : ℚ) : ℝ) > npv (get_coupon_schedule today b) (-(1 / 2)) ∨
      ((b.clean_price : ℚ) : ℝ) < npv (get_coupon_schedule today b) 2) :
    calculate_ytm ((b.clean_price : ℚ) : ℝ) (get_coupon_schedule today b)
      tolerance max_iterations = none := by
  unfold calculate_ytm
  by_cases h1 : ((b.clean_price : ℚ) : ℝ) ≤ 0
  · rw [if_pos h1]
  · rw [if_neg h1]
    by_cases h2 : (get_coupon_schedule today b).isEmpty
    · rw [if_pos h2]
    · rw [if_neg h2, if_pos h]

/-- C2 witness: a zero-coupon bond redeeming `1` in four years priced at
`100 > NPV(-0.5) = 16` is reported unsolvable. -/
theorem out_of_range_unsolvable_witness :
    ((bondOverpriced.clean_price : ℚ) : ℝ) >
        npv (get_coupon_schedule 0 bondOverpriced) (-(1 / 2)) ∧
      calculate_ytm ((bondOverpriced.clean_price : ℚ) : ℝ)
        (get_coupon_schedule 0 bondOverpriced) (1 / 1000000) 1000 = none := by
  have hs : get_coupon_schedule 0 bondOverpriced = [((4 : ℚ), (1 : ℚ))] := by
    norm_num [get_coupon_schedule, preEvents, explicitEvents, couponRateTruthy,
      bondOverpriced, years_fraction, days_between]
  have hnpv : npv (get_coupon_schedule 0 bondOverpriced) (-(1 / 2)) = 16 := by
    rw [hs, npv_single_eval 4 1 4 _ (by norm_num) (by norm_num)]
    norm_num
  have h1 : ((bondOverpriced.clean_price : ℚ) : ℝ) >
      npv (get_coupon_schedule 0 bondOverpriced) (-(1 / 2)) := by
    rw [hnpv]
    norm_num [Bond.clean_price, bondOverpriced]
  exact ⟨h1, out_of_range_unsolvable 0 bondOverpriced _ _ (Or.inl h1)⟩

/-! ## Claim C3 -/

/-- C3 counterexample: a bond with `coupon_rate = 0` and a non-empty
explicit coupon-period list is classified zero-coupon by the code, while
the claim's condition `(rate absent or 0) and no periods` is false for
it. -/
theorem is_zero_coupon_claim_false :
    bondRateZero.is_zero_coupon = true ∧
      ¬ ((bondRateZero.coupon_rate = none ∨ bondRateZero.coupon_rate = some 0) ∧
        bondRateZero.coupon_periods = []) := by
  decide

/-- C3 (amended): `is_zero_coupon` is true exactly when either the coupon
rate is absent and the explicit coupon-period list is empty, or the
coupon rate is present and equal to `0` — when a rate is present the
period list is ignored. -/
theorem is_zero_coupon_iff (b : Bond) :
    b.is_zero_coupon = true ↔
      ((b.coupon_rate = none ∧ b.coupon_periods = []) ∨ b.coupon_rate = some 0) := by
  unfold Bond.is_zero_coupon
  cases hb : b.coupon_rate with
  | none => simp [hb, List.length_eq_zero]
  | some r => simp [hb]

/-! ## Claim C5 -/

/-- C5: whenever the coupon phase of the schedule is non-empty,
`get_coupon_schedule` merges the face value into the last coupon's amount
exactly when the maturity time is within `0.01` years of the last coupon
time, and otherwise appends the separate trailing redemption event. -/
theorem redemption_merge_rule (today : ℤ) (b : Bond) (init : List (ℚ × ℚ)) (tl cl : ℚ)
    (h : preEvents today b = init ++ [(tl, cl)]) :
    get_coupon_schedule today b =
      if |years_fraction today b.maturity_date - tl| ≤ 1 / 100 then
        init ++ [(tl, cl + b.nominal)]
      else (init ++ [(tl, cl)]) ++ [(years_fraction today b.maturity_date, b.nominal)] := by
  rw [get_coupon_schedule_concat today b init tl cl h]
  rcases le_or_lt |years_fraction today b.maturity_date - tl| (1 / 100) with hc | hc
  · rw [if_neg (not_lt.mpr hc), if_pos hc]
  · rw [if_pos hc, if_neg (not_le.mpr hc)]

/-- C5 witness: one explicit coupon of `10` at four years, maturity at
eight years — redemption is appended as a separate trailing event. -/
theorem redemption_merge_rule_witness :
    get_coupon_schedule 0 bondAppend = [((4 : ℚ), (10 : ℚ)), ((8 : ℚ), (1000 : ℚ))] := by
  have hpre : preEvents 0 bondAppend = [] ++ [((4 : ℚ), (10 : ℚ))] := by
    norm_num [preEvents, explicitEvents, bondAppend, years_fraction, days_between,
      List.filterMap_cons]
  have h := redemption_merge_rule 0 bondAppend [] 4 10 hpre
  rw [h]
  have hmt : years_fraction 0 bondAppend.maturity_date = 8 := by
    norm_num [bondAppend, years_fraction, days_between]
  rw [hmt]
  rw [if_neg (by rw [show (8 : ℚ) - 4 = 4 by norm_num,
    abs_of_nonneg (by norm_num : (0 : ℚ) ≤ 4)]; norm_num)]
  simp [bondAppend]

/-! ## Claim C6 -/

/-- C6 counterexample: explicit coupon periods supplied in descending
date order pass through `get_coupon_schedule` unsorted — the resulting
schedule is not ascending by time. -/
theorem schedule_sorted_claim_false :
    ¬ List.Pairwise (· ≤ ·) ((get_coupon_schedule 0 bondUnsorted).map Prod.fst) := by
  have hpre : preEvents 0 bondUnsorted =
      [((800 / 1461 : ℚ), 10)] ++ [((400 / 1461 : ℚ), 10)] := by
    norm_num [preEvents, explicitEvents, bondUnsorted, couponRateTruthy,
      years_fraction, days_between, List.filterMap_cons]
  have hs := get_coupon_schedule_concat 0 bondUnsorted [((800 / 1461 : ℚ), 10)]
    (400 / 1461) 10 hpre
  have hmt : years_fraction 0 bondUnsorted.maturity_date = 1200 / 1461 := by
    norm_num [bondUnsorted, years_fraction, days_between]
  rw [hmt] at hs
  rw [if_pos (by rw [show (1200 / 1461 : ℚ) - 400 / 1461 = 800 / 1461 by norm_num,
    abs_of_nonneg (by norm_num : (0 : ℚ) ≤ 800 / 1461)]; norm_num)] at hs
  rw [hs]
  intro hp
  simp only [List.map_cons, List.map_nil, List.cons_append, List.nil_append,
    List.pairwise_cons, List.mem_cons] at hp
  have := hp.1 (400 / 1461) (Or.inl rfl)
  norm_num at this

/-- C6 (amended): whenever the surviving explicit coupon events are in
ascending time order with all times at most the maturity time — in
particular for well-formed feeds whose period records are date-sorted
with dates on or before maturity — the schedule returned by
`get_coupon_schedule` is ascending by time.  (Unsorted explicit input,
as in the counterexample, is passed through unsorted.) -/
theorem schedule_sorted (today : ℤ) (b : Bond)
    (h1 : List.Pairwise (fun x y : ℚ × ℚ => x.1 ≤ y.1) (explicitEvents today b))
    (h2 : ∀ e ∈ explicitEvents today b, e.1 ≤ years_fraction today b.maturity_date) :
    List.Pairwise (· ≤ ·) ((get_coupon_schedule today b).map Prod.fst) := by
  obtain ⟨hp, hle⟩ := preEvents_pairwise_le today b h1 h2
  rw [List.pairwise_map]
  cases hlast : (preEvents today b).getLast? with
  | none =>
    unfold get_coupon_schedule
    rw [hlast]
    simp
  | some last =>
    obtain ⟨tl, cl⟩ := last
    have hne : preEvents today b ≠ [] := by
      intro h0
      rw [h0] at hlast
      simp at hlast
    have hgl : (preEvents today b).getLast hne = (tl, cl) := by
      rw [List.getLast?_eq_getLast _ hne] at hlast
      exact Option.some.inj hlast
    obtain ⟨init, hinit⟩ : ∃ init, preEvents today b = init ++ [(tl, cl)] :=
      ⟨(preEvents today b).dropLast, by
        rw [← hgl, List.dropLast_append_getLast hne]⟩
    rw [hinit] at hp hle
    have hcl : tl ≤ years_fraction today b.maturity_date :=
      hle (tl, cl) (List.mem_append.mpr (Or.inr (List.mem_singleton.mpr rfl)))
    have hsplit := List.pairwise_append.mp hp
    rw [get_coupon_schedule_concat today b init tl cl hinit]
    split
    · -- separate trailing redemption event
      rw [List.append_assoc]
      refine List.pairwise_append.mpr ⟨hsplit.1, ?_, ?_⟩
      · refine List.pairwise_append.mpr
          ⟨List.pairwise_singleton _ _, List.pairwise_singleton _ _, ?_⟩
        intro x hx e he
        simp only [List.mem_singleton] at hx he
        subst hx
        subst he
        exact hcl
      · intro a ha e he
        simp only [List.mem_append, List.mem_singleton] at he
        have hatl : a.1 ≤ tl := hsplit.2.2 a ha (tl, cl) (List.mem_singleton.mpr rfl)
        rcases he with rfl | rfl
        · exact hatl
        · exact le_trans hatl hcl
    · -- face value merged into the last coupon
      refine List.pairwise_append.mpr ⟨hsplit.1, List.pairwise_singleton _ _, ?_⟩
      intro a ha e he
      rw [List.mem_singleton] at he
      subst he
      exact hsplit.2.2 a ha (tl, cl) (List.mem_singleton.mpr rfl)

/-- C6 witness: the same instrument with date-sorted coupon periods
yields an ascending schedule. -/
theorem schedule_sorted_witness :
    List.Pairwise (· ≤ ·) ((get_coupon_schedule 0 bondSorted).map Prod.fst) := by
  have hex : explicitEvents 0 bondSorted =
      [((400 / 1461 : ℚ), 10), ((800 / 1461 : ℚ), 10)] := by
    norm_num [explicitEvents, bondSorted, years_fraction, days_between,
      List.filterMap_cons]
  refine schedule_sorted 0 bondSorted ?_ ?_
  · rw [hex]
    refine List.pairwise_cons.mpr ⟨?_, List.pairwise_singleton _ _⟩
    intro e he
    rw [List.mem_singleton] at he
    subst he
    norm_num
  · rw [hex]
    intro e he
    rw [List.mem_cons, List.mem_singleton] at he
    have hmt : years_fraction 0 bondSorted.maturity_date = 1200 / 1461 := by
      norm_num [bondSorted, years_fraction, days_between]
    rw [hmt]
    rcases he with rfl | rfl <;> norm_num

/-! ## Claim C7 -/

/-- C7 counterexample: for a bond with face value `0` and no coupon data
the schedule is not empty — `get_coupon_schedule` always appends the
redemption event, here `(4 years, amount 0)`. -/
theorem no_schedule_claim_false :
    get_coupon_schedule 0 bondZeroFace = [((4 : ℚ), (0 : ℚ))] ∧
      get_coupon_schedule 0 bondZeroFace ≠ [] := by
  have hs : get_coupon_schedule 0 bondZeroFace = [((4 : ℚ), (0 : ℚ))] := by
    norm_num [get_coupon_schedule, preEvents, explicitEvents, couponRateTruthy,
      bondZeroFace, years_fraction, days_between]
  exact ⟨hs, by rw [hs]; simp⟩

/-- C7 (amended): for a bond with face value `≤ 0` and no usable coupon
data, the schedule is the single redemption event `(maturity time, face
value)` — non-empty — and `calculate_ytm` still returns `None`, via the
non-positive-price check or the bracketing check (the modelled functions
are total, so no exception arises). -/
theorem nonpositive_face_unsolvable (today : ℤ) (b : Bond)
    (hnom : b.nominal ≤ 0) (hex : explicitEvents today b = [])
    (hrate : couponRateTruthy b = false) :
    get_coupon_schedule today b = [(years_fraction today b.maturity_date, b.nominal)] ∧
      get_coupon_schedule today b ≠ [] ∧
      calculate_ytm_bond today b = none := by
  have hpre : preEvents today b = [] := by
    unfold preEvents
    rw [hex, hrate]
    simp
  have hsched : get_coupon_schedule today b =
      [(years_fraction today b.maturity_date, b.nominal)] := by
    unfold get_coupon_schedule
    rw [hpre]
    rfl
  refine ⟨hsched, by rw [hsched]; simp, ?_⟩
  unfold calculate_ytm_bond calculate_ytm
  by_cases h1 : ((b.clean_price : ℚ) : ℝ) ≤ 0
  · rw [if_pos h1]
  · rw [if_neg h1]
    by_cases h2 : (get_coupon_schedule today b).isEmpty
    · rw [if_pos h2]
    · have hcond : ((b.clean_price : ℚ) : ℝ) >
          npv (get_coupon_schedule today b) (-(1 / 2)) ∨
          ((b.clean_price : ℚ) : ℝ) < npv (get_coupon_schedule today b) 2 := by
        left
        have hnp : npv (get_coupon_schedule today b) (-(1 / 2)) ≤ 0 := by
          rw [hsched]
          apply npv_nonpos _ _ (by norm_num)
          simp only [List.mem_singleton]
          rintro e rfl
          exact hnom
        have hpos : 0 < ((b.clean_price : ℚ) : ℝ) := not_le.mp h1
        linarith
      rw [if_neg h2, if_pos hcond]

/-- C7 witness: the zero-face bond — non-empty schedule, `None` yield. -/
theorem nonpositive_face_unsolvable_witness :
    get_coupon_schedule 0 bondZeroFace ≠ [] ∧
      calculate_ytm_bond 0 bondZeroFace = none := by
  have h := nonpositive_face_unsolvable 0 bondZeroFace
    (by norm_num [bondZeroFace]) rfl rfl
  exact ⟨h.2.1, h.2.2⟩

/-! ## Claim C10 -/

/-- C10: every numeric yield returned by `calculate_ytm` — via the
tolerance check or as the final midpoint — lies in the bisection domain
`[-0.5, 2]`. -/
theorem ytm_result_in_domain (today : ℤ) (b : Bond) (y : ℝ)
    (h : calculate_ytm_bond today b = some y) : -(1 / 2) ≤ y ∧ y ≤ 2 := by
  unfold calculate_ytm_bond calculate_ytm at h
  by_cases h1 : ((b.clean_price : ℚ) : ℝ) ≤ 0
  · rw [if_pos h1] at h
    exact absurd h (by simp)
  · rw [if_neg h1] at h
    by_cases h2 : (get_coupon_schedule today b).isEmpty
    · rw [if_pos h2] at h
      exact absurd h (by simp)
    · rw [if_neg h2] at h
      by_cases h3 : ((b.clean_price : ℚ) : ℝ) >
          npv (get_coupon_schedule today b) (-(1 / 2)) ∨
          ((b.clean_price : ℚ) : ℝ) < npv (get_coupon_schedule today b) 2
      · rw [if_pos h3] at h
        exact absurd h (by simp)
      · rw [if_neg h3] at h
        have hmem := ytmLoop_mem ((b.clean_price : ℚ) : ℝ)
          (get_coupon_schedule today b) (1 / 1000000) 1000 (-(1 / 2)) 2
          (le_refl _) (by norm_num) (le_refl _)
        have h' := Option.some.inj h
        rw [← h']
        exact hmem

/-- C10 witness: a concrete bond on which the solver returns `0.75` at
the first midpoint; the returned yield lies in `[-0.5, 2]`. -/
theorem ytm_result_in_domain_witness :
    calculate_ytm_bond 0 bondMidpoint = some (3 / 4 : ℝ) ∧
      -(1 / 2) ≤ (3 / 4 : ℝ) ∧ (3 / 4 : ℝ) ≤ 2 := by
  have hs : get_coupon_schedule 0 bondMidpoint = [((4 : ℚ), (16 : ℚ))] := by
    norm_num [get_coupon_schedule, preEvents, explicitEvents, couponRateTruthy,
      bondMidpoint, years_fraction, days_between]
  have hcp : ((bondMidpoint.clean_price : ℚ) : ℝ) = 4096 / 2401 := by
    norm_num [Bond.clean_price, bondMidpoint]
  have hlow : npv [((4 : ℚ), (16 : ℚ))] (-(1 / 2)) = 256 := by
    rw [npv_single_eval 4 16 4 _ (by norm_num) (by norm_num)]
    norm_num
  have hhigh : npv [((4 : ℚ), (16 : ℚ))] 2 = 16 / 81 := by
    rw [npv_single_eval 4 16 4 _ (by norm_num) (by norm_num)]
    norm_num
  have hmid : npv [((4 : ℚ), (16 : ℚ))] ((-(1 / 2) + 2) / 2) = 4096 / 2401 := by
    rw [npv_single_eval 4 16 4 _ (by norm_num) (by norm_num)]
    norm_num
  have heval : calculate_ytm_bond 0 bondMidpoint = some (3 / 4 : ℝ) := by
    unfold calculate_ytm_bond calculate_ytm
    rw [hcp, hs]
    rw [if_neg (by norm_num : ¬ (4096 / 2401 : ℝ) ≤ 0)]
    rw [if_neg (by simp : ¬ ([((4 : ℚ), (16 : ℚ))].isEmpty = true))]
    rw [hlow, hhigh]
    rw [if_neg (by norm_num :
      ¬ ((4096 / 2401 : ℝ) > 256 ∨ (4096 / 2401 : ℝ) < 16 / 81))]
    rw [show (1000 : ℕ) = 999 + 1 from rfl, ytmLoop_succ, hmid]
    rw [if_pos (by norm_num : |(4096 / 2401 : ℝ) - 4096 / 2401| < 1 / 1000000)]
    norm_num
  exact ⟨heval, ytm_result_in_domain 0 bondMidpoint (3 / 4) heval⟩

/-! ## Claim C4 -/

/-- The tiny-amount schedule that defeats the price-unit tolerance. -/
def schedTiny : List (ℚ × ℚ) := [((4 : ℚ), (1 / 1000000000 : ℚ))]

/-- C4 counterexample: for the strictly positive schedule `schedTiny`
and in-domain yield `y₀ = 0`, synthesizing the price as `NPV(0)` and
solving returns `0.75` (the very first midpoint meets the price-unit
tolerance), which differs from `y₀` by far more than `1e-6`. -/
theorem roundtrip_claim_false :
    (∀ e ∈ schedTiny, 0 < e.2) ∧ -(1 / 2) ≤ (0 : ℝ) ∧ (0 : ℝ) ≤ 2 ∧
      calculate_ytm (npv schedTiny 0) schedTiny (1 / 1000000) 1000 = some (3 / 4 : ℝ) ∧
      ¬ |(3 / 4 : ℝ) - 0| ≤ 1 / 1000000 := by
  have hp : npv schedTiny 0 = 1 / 1000000000 := by
    rw [show schedTiny = [((4 : ℚ), (1 / 1000000000 : ℚ))] from rfl,
      npv_single_eval 4 (1 / 1000000000) 4 _ (by norm_num) (by norm_num)]
    norm_num
  have hlow : npv schedTiny (-(1 / 2)) = 16 / 1000000000 := by
    rw [show schedTiny = [((4 : ℚ), (1 / 1000000000 : ℚ))] from rfl,
      npv_single_eval 4 (1 / 1000000000) 4 _ (by norm_num) (by norm_num)]
    norm_num
  have hhigh : npv schedTiny 2 = 1 / 81000000000 := by
    rw [show schedTiny = [((4 : ℚ), (1 / 1000000000 : ℚ))] from rfl,
      npv_single_eval 4 (1 / 1000000000) 4 _ (by norm_num) (by norm_num)]
    norm_num
  have hmid : npv schedTiny ((-(1 / 2) + 2) / 2) = 256 / 2401000000000 := by
    rw [show schedTiny = [((4 : ℚ), (1 / 1000000000 : ℚ))] from rfl,
      npv_single_eval 4 (1 / 1000000000) 4 _ (by norm_num) (by norm_num)]
    norm_num
  refine ⟨?_, by norm_num, by norm_num, ?_, ?_⟩
  · simp only [schedTiny, List.mem_singleton]
    rintro e rfl
    norm_num
  · unfold calculate_ytm
    rw [hp]
    rw [if_neg (by norm_num : ¬ (1 / 1000000000 : ℝ) ≤ 0)]
    rw [if_neg (by simp [schedTiny] : ¬ (schedTiny.isEmpty = true))]
    rw [hlow, hhigh]
    rw [if_neg (by norm_num : ¬ ((1 / 1000000000 : ℝ) > 16 / 1000000000 ∨
      (1 / 1000000000 : ℝ) < 1 / 81000000000))]
    rw [show (1000 : ℕ) = 999 + 1 from rfl, ytmLoop_succ, hmid]
    rw [if_pos]
    · norm_num
    · rw [show (256 / 2401000000000 : ℝ) - 1 / 1000000000 =
        -(2145 / 2401000000000) by norm_num, abs_neg,
        abs_of_nonneg (by norm_num : (0 : ℝ) ≤ 2145 / 2401000000000)]
      norm_num
  · rw [sub_zero, abs_of_nonneg (by norm_num : (0 : ℝ) ≤ 3 / 4)]
    norm_num

/-- C4 (amended): for every schedule with strictly positive amounts,
non-negative times, and every yield `y₀` in the solver's domain
`[-0.5, 2]`, synthesizing a clean price as `NPV(y₀)` and running
`calculate_ytm` on it returns *some* numeric yield, which lies in the
domain `[-0.5, 2]` — but, as the counterexample shows, that yield need
not be within `1e-6` of `y₀`, because the convergence tolerance is
measured in price units, not yield units. -/
theorem roundtrip_solvable (schedule : List (ℚ × ℚ)) (y0 : ℝ)
    (hgood : ∀ e ∈ schedule, 0 < e.2 ∧ 0 ≤ e.1) (hne : schedule ≠ [])
    (hy0l : -(1 / 2) ≤ y0) (hy0h : y0 ≤ 2) (tolerance : ℝ) (max_iterations : ℕ) :
    ∃ y, calculate_ytm (npv schedule y0) schedule tolerance max_iterations = some y ∧
      -(1 / 2) ≤ y ∧ y ≤ 2 := by
  have hy0 : (-1 : ℝ) < y0 := by linarith
  have hpos : 0 < npv schedule y0 :=
    npv_pos schedule y0 hy0 hne fun e he => (hgood e he).1
  have hlow : npv schedule y0 ≤ npv schedule (-(1 / 2)) :=
    npv_antitone schedule (-(1 / 2)) y0 (by norm_num) hy0l
      fun e he => ⟨le_of_lt (hgood e he).1, (hgood e he).2⟩
  have hhigh : npv schedule 2 ≤ npv schedule y0 :=
    npv_antitone schedule y0 2 hy0 hy0h
      fun e he => ⟨le_of_lt (hgood e he).1, (hgood e he).2⟩
  have hne' : ¬ (schedule.isEmpty = true) := by
    cases schedule with
    | nil => exact absurd rfl hne
    | cons a l => simp
  refine ⟨ytmLoop (npv schedule y0) schedule tolerance max_iterations (-(1 / 2)) 2,
    ?_, ?_⟩
  · unfold calculate_ytm
    rw [if_neg (not_le.mpr hpos), if_neg hne', if_neg ?_]
    push_neg
    exact ⟨hlow, hhigh⟩
  · exact ytmLoop_mem _ _ _ max_iterations (-(1 / 2)) 2 (le_refl _) (by norm_num)
      (le_refl _)

/-- C4 witness: the amended round-trip at the schedule `[(1, 2)]` and
`y₀ = 0`. -/
theorem roundtrip_solvable_witness :
    ∃ y, calculate_ytm (npv [((1 : ℚ), (2 : ℚ))] 0) [((1 : ℚ), (2 : ℚ))]
        (1 / 1000000) 1000 = some y ∧ -(1 / 2) ≤ y ∧ y ≤ 2 :=
  roundtrip_solvable [((1 : ℚ), (2 : ℚ))] 0
    (by simp only [List.mem_singleton]; rintro e rfl; exact ⟨by norm_num, by norm_num⟩)
    (by simp) (by norm_num) (by norm_num) (1 / 1000000) 1000

/-! ## Claim C8 -/

/-- C8 counterexample: a bond maturing on the evaluation date has
computed years-to-maturity `0`, yet under a screening configuration with
`min_years_to_maturity = 0` the `BondCalculator.filter_bonds` step keeps
it — exclusion is not independent of the screening configuration. -/
theorem maturity_today_claim_false :
    years_fraction 5 5 = 0 ∧ calcBondZeroYears.years_to_maturity = 0 ∧
      filter_bonds cfgMinZero [calcBondZeroYears] = [calcBondZeroYears] := by
  refine ⟨by norm_num [years_fraction, days_between], rfl, ?_⟩
  norm_num [filter_bonds, keepBond, calcBondZeroYears, cfgMinZero, List.filter_cons]

/-- C8 (amended): a bond maturing on the evaluation date has
years-to-maturity `0`; `is_valid_bond` excludes it for every settings
dictionary, and `BondCalculator.filter_bonds` excludes any bond annotated
with years-to-maturity `0` whenever the configured
`min_years_to_maturity` is positive (as in the default `0.5`) — but not
for every configuration. -/
theorem maturity_today_excluded (today : ℤ) (b : Bond) (s : Settings)
    (cfg : CalcConfig) (cb : CalcBond) (hmat : b.maturity_date = today) :
    years_fraction today b.maturity_date = 0 ∧
      is_valid_bond today b s = false ∧
      (cb.years_to_maturity = 0 → 0 < cfg.min_years_to_maturity →
        keepBond cfg cb = false) := by
  have hy : years_fraction today b.maturity_date = 0 := by
    rw [hmat]
    simp [years_fraction, days_between]
  refine ⟨hy, ?_, ?_⟩
  · unfold is_valid_bond
    rw [hy]
    simp
  · intro h0 hmin
    unfold keepBond
    rw [if_pos]
    intro hcon
    rw [h0] at hcon
    exact absurd hcon.1 (not_le.mpr hmin)

/-- C8 witness: concrete maturity-equals-today bond, settings, default
configuration, and an annotated bond with years-to-maturity `0`. -/
theorem maturity_today_excluded_witness :
    is_valid_bond 5 bondMaturingToday settingsPermissive = false ∧
      keepBond cfgDefault calcBondZeroYears = false := by
  have h := maturity_today_excluded 5 bondMaturingToday settingsPermissive
    cfgDefault calcBondZeroYears rfl
  exact ⟨h.2.1, h.2.2 rfl (by norm_num [cfgDefault])⟩

end Moex
